import Mathlib

/-!
Verification development for the "Fill or Bust" dice game engine
(src/main.py).  The Python source is shallowly embedded: pure functions
become Lean functions, the stateful turn loop becomes a fueled interpreter
with explicit state passing, and the pseudo-random source becomes an
explicit deterministic generator state threaded through every call.
-/

/-! ## Pseudo-random source

Models the `random.Random(seed)` objects used by the program.  Python's
Mersenne Twister is external library code; the engine only relies on the
stream being a deterministic function of the seed, so we model the stream
with a concrete deterministic linear-congruential generator.  What matters
for the claims is which operations consume values from which generator
state, and that is embedded faithfully from the source.
-/

structure RNG where
  state : Nat
deriving DecidableEq

def mkRNG (seed : Nat) : RNG := ⟨seed⟩

/-- Advance the generator one step (one consumed random value). -/
def rngNext (r : RNG) : RNG := ⟨(r.state * 1103515245 + 12345) % 2147483648⟩

/-- Model of `rng.randint(1, 6)`: one uniform die value in 1..6 together
with the advanced generator state. -/
def randint1to6 (r : RNG) : Nat × RNG :=
  let r' := rngNext r
  (r'.state % 6 + 1, r')

/-- Embeds `Game.roll` (src/main.py line 147): `[self.rng.randint(1, 6) for _ in
range(n)]`.  The count is an `Int` because the turn loop can call it with a
negative remaining-dice count, and Python's `range(n)` is then empty. -/
def rollDice (n : Int) (r : RNG) : List Nat × RNG :=
  (List.range n.toNat).foldl
    (fun acc _ =>
      let (v, r') := randint1to6 acc.2
      (acc.1 ++ [v], r'))
    ([], r)

/-! ## Scorer -/

/-- Occurrence count of a face in the roll: `Counter(dice)[f]`. -/
def cntFace (dice : List Nat) (f : Nat) : Nat := List.count f dice

/-- Count of face `f` remaining after the triple loop of `score_dice`
consumed three of a kind (`cnt[face] = c - 3` at src/main.py line 76). -/
def remFace (dice : List Nat) (f : Nat) : Nat :=
  if 3 ≤ cntFace dice f then cntFace dice f - 3 else cntFace dice f

/-- Base value of a three of a kind: `1000 if face == 1 else face * 100`. -/
def tripleBase (f : Nat) : Nat := if f = 1 then 1000 else f * 100

/-- Points component of `score_dice` (src/main.py lines 66-84): the loop
over faces 1..6 adds the triple base when a face occurs at least three
times, then the post-loop counts of 1s and 5s score 100 and 50 each. -/
def score_dice_points (dice : List Nat) : Nat :=
  ([1, 2, 3, 4, 5, 6].foldl
    (fun s f => if 3 ≤ cntFace dice f then s + tripleBase f else s) 0)
  + remFace dice 1 * 100 + remFace dice 5 * 50

/-- Consumed-count component of `score_dice` (the `used` Counter): faces
1..6 with at least three occurrences contribute exactly 3 from the triple
loop, and remaining 1s and 5s are added by the singles step.  Faces outside
1..6 never enter the Counter. -/
def score_dice_used (dice : List Nat) (f : Nat) : Nat :=
  (if 1 ≤ f ∧ f ≤ 6 ∧ 3 ≤ cntFace dice f then 3 else 0)
  + (if f = 1 then remFace dice 1 else 0)
  + (if f = 5 then remFace dice 5 else 0)

/-- Embeds `score_dice` (src/main.py lines 55-86): returns the score and
the face-to-count breakdown of the dice consumed to produce it. -/
def score_dice (dice : List Nat) : Nat × (Nat → Nat) :=
  (score_dice_points dice, score_dice_used dice)

/-- Embeds `is_scoring_roll` (src/main.py lines 89-91). -/
def is_scoring_roll (dice : List Nat) : Bool :=
  decide (0 < (score_dice dice).1)

/-- Embeds `sum(breakdown.values())` (src/main.py lines 218 and 297): the
breakdown Counter only ever holds keys 1..6. -/
def usedTotal (used : Nat → Nat) : Nat :=
  ([1, 2, 3, 4, 5, 6].map used).sum

/-- The per-face scoring formula in the words of the claim and of spec
section 4.2: a face with at least 3 occurrences yields its triple base for
exactly three consumed dice, each remaining 1 scores 100, each remaining 5
scores 50, and faces 2, 3, 4, 6 beyond a triple never score.  Stated
independently of `score_dice` so the two can be compared. -/
def scoreSpec (dice : List Nat) : Nat :=
  ([1, 2, 3, 4, 5, 6].map (fun f =>
    (if 3 ≤ List.count f dice then (if f = 1 then 1000 else f * 100) else 0)
    + (if f = 1 then
        (if 3 ≤ List.count f dice then List.count f dice - 3 else List.count f dice) * 100
      else 0)
    + (if f = 5 then
        (if 3 ≤ List.count f dice then List.count f dice - 3 else List.count f dice) * 50
      else 0))).sum

/-! ## Cards and per-turn card state -/

/-- The card identifiers of the deck (src/main.py line 39). -/
inductive Card
  | bonus (amount : Nat)
  | noDice
  | mustBust
  | doubleTrouble
deriving DecidableEq

/-- Embeds the `special_state` dictionary built at the start of
`Game.play_turn` (src/main.py lines 156-161). -/
structure Special where
  bonus : Nat
  no_dice : Bool
  must_bust : Bool
  double_trouble : Bool
deriving DecidableEq

/-- Embeds the card dispatch of `Game.play_turn` (src/main.py lines
162-177): exactly one effect flag is set per drawn card. -/
def specialOf : Card → Special
  | Card.bonus n => ⟨n, false, false, false⟩
  | Card.noDice => ⟨0, true, false, false⟩
  | Card.mustBust => ⟨0, false, true, false⟩
  | Card.doubleTrouble => ⟨0, false, false, true⟩

/-- The mutable variables of one turn of `Game.play_turn`: `dice_left`,
`turn_points`, `fills` (src/main.py lines 184-186) together with the
one-shot flag the code stores as `special_state['bonus_added']`.
`dice_left` is an `Int` because the Python variable is a plain integer
that the selection path can in fact drive negative. -/
structure TurnSt where
  dice_left : Int
  turn_points : Nat
  fills : Nat
  bonus_added : Bool
deriving DecidableEq

/-- Embeds the eligible-positions computation of `Game.play_turn`
(src/main.py lines 264-279): 0-based indices of the roll that may be
chosen.  The code builds a set; we return the indices as a list (iterating
faces 1..6 rather than in first-appearance order) and only ever use
membership, which agrees with the set semantics. -/
def scoring_indices (roll : List Nat) : List Nat :=
  [1, 2, 3, 4, 5, 6].foldl (fun acc f =>
    let positions := (List.range roll.length).filter (fun i => roll.getD i 0 = f)
    let c := positions.length
    if 3 ≤ c then
      acc ++ positions.take 3
        ++ (if (f = 1 ∨ f = 5) ∧ 3 < c then positions.drop 3 else [])
    else
      acc ++ (if f = 1 ∨ f = 5 then positions else [])) []

/-- Embeds the common tail of a successful keep (src/main.py lines 320-331
in the interactive path, lines 216-229 in the AI path, which are
identical): add the taken score to the turn total, subtract the number of
taken dice from `dice_left`, and on a fill (dice_left hits exactly 0)
bump `fills`, apply the one-shot bonus, and reset `dice_left` to 6. -/
def afterTake (sp : Special) (st : TurnSt) (taken_score taken_count : Nat) : TurnSt :=
  let tp := st.turn_points + taken_score
  let dl : Int := st.dice_left - (taken_count : Int)
  if dl = 0 then
    if sp.bonus ≠ 0 ∧ st.bonus_added = false then
      ⟨6, tp + sp.bonus, st.fills + 1, true⟩
    else
      ⟨6, tp, st.fills + 1, st.bonus_added⟩
  else
    ⟨dl, tp, st.fills, st.bonus_added⟩

/-- The choice a human makes at the keep-or-bank prompt (src/main.py line
282): keep all scoring dice, choose 1-based indices, or bank.  The chosen
indices are `Int` because the player types arbitrary integers. -/
inductive Decision
  | keep
  | choose (parts : List Int)
  | bank
deriving DecidableEq

/-- Outcome of one iteration of the interactive roll loop after the roll
has been produced.  `rejected` is the code's `continue`: the turn
variables are untouched and control returns to the top of the `while True`
loop, which rolls fresh dice.  `took st taken bank` is a successful keep
followed by the roll-again-or-bank prompt answer `bank`. -/
inductive RoundOut
  | busted (credit : Nat)
  | rejected
  | bankedNow
  | took (st : TurnSt) (taken : Nat) (bank : Bool)
deriving DecidableEq

/-- Embeds the body of the interactive roll loop of `Game.play_turn`
(src/main.py lines 190-344) after the roll is drawn: bust check (lines
195-209), the keep-or-bank prompt (lines 281-293), the index-selection
checks (lines 298-318), the take bookkeeping (lines 320-331) and the
roll-again-or-bank prompt (lines 336-344). -/
def humanRound (sp : Special) (st : TurnSt) (roll : List Nat)
    (dec : Decision) (cont_bank : Bool) : RoundOut :=
  let score := (score_dice roll).1
  if score = 0 then
    RoundOut.busted (if sp.must_bust then st.turn_points else 0)
  else
    match dec with
    | Decision.bank =>
      if sp.double_trouble ∧ st.fills < 2 then RoundOut.rejected
      else RoundOut.bankedNow
    | Decision.keep =>
      RoundOut.took (afterTake sp st score (usedTotal (score_dice roll).2))
        score cont_bank
    | Decision.choose parts =>
      let idx := parts.map (fun p => p - 1)
      if idx.any (fun i => decide (i < 0) || decide ((roll.length : Int) ≤ i)) then
        RoundOut.rejected
      else if ¬ (∀ i ∈ idx, i.toNat ∈ scoring_indices roll) then
        RoundOut.rejected
      else
        let chosen := idx.map (fun i => roll.getD i.toNat 0)
        let taken_score := (score_dice chosen).1
        if taken_score = 0 then RoundOut.rejected
        else RoundOut.took (afterTake sp st taken_score chosen.length)
          taken_score cont_bank

/-- Final observables of one interactive turn: the value `play_turn`
returns, the amount credited to the player's cumulative score, the final
fill count and one-shot flag, the sum of all taken scores (`takenSum` is a
ghost observer used to state the bonus-accounting claims), and the random
source after the turn. -/
structure TurnEnd where
  ret : Nat
  credit : Nat
  fills : Nat
  bonus_added : Bool
  takenSum : Nat
  rng : RNG
deriving DecidableEq

/-- Fueled interpreter for the interactive `while True` roll loop of
`Game.play_turn` (src/main.py lines 188-345).  `decs`/`conts` are the
streams of prompt answers supplied by the player, indexed by remaining
fuel; `ts` accumulates the ghost `takenSum`. -/
def interactiveTurn (sp : Special) (decs : Nat → Decision) (conts : Nat → Bool) :
    TurnSt → RNG → Nat → Nat → Option TurnEnd
  | _, _, _, 0 => none
  | st, rng, ts, fuel + 1 =>
    let roll := (rollDice st.dice_left rng).1
    let rng' := (rollDice st.dice_left rng).2
    match humanRound sp st roll (decs fuel) (conts fuel) with
    | RoundOut.busted credit =>
      some ⟨0, credit, st.fills, st.bonus_added, ts, rng'⟩
    | RoundOut.rejected => interactiveTurn sp decs conts st rng' ts fuel
    | RoundOut.bankedNow =>
      some ⟨st.turn_points, st.turn_points, st.fills, st.bonus_added, ts, rng'⟩
    | RoundOut.took st' taken bank =>
      if bank then
        some ⟨st'.turn_points, st'.turn_points, st'.fills, st'.bonus_added,
          ts + taken, rng'⟩
      else interactiveTurn sp decs conts st' rng' (ts + taken) fuel

/-- Outcome of one iteration of the AI/non-interactive roll loop
(src/main.py lines 195-244): bust, bank, or continue rolling. -/
inductive AiOut
  | busted (points : Nat)
  | banked (ret : Nat) (points : Nat) (st : TurnSt) (taken : Nat)
  | cont (st : TurnSt) (points : Nat) (taken : Nat)
deriving DecidableEq

/-- Embeds the body of the AI/non-interactive roll loop of
`Game.play_turn` after the roll is drawn (src/main.py lines 195-244):
bust handling with the MUST BUST credit, taking all scoring dice, fill
and bonus bookkeeping, and the threshold bank decision which credits the
bonus a second time when at least one fill happened. -/
def aiProcessRoll (sp : Special) (threshold : Nat) (is_ai : Bool)
    (st : TurnSt) (points : Nat) (roll : List Nat) : AiOut :=
  let score := (score_dice roll).1
  if score = 0 then
    AiOut.busted (if sp.must_bust then points + st.turn_points else points)
  else
    let st' := afterTake sp st score (usedTotal (score_dice roll).2)
    if is_ai ∧ threshold ≤ st'.turn_points then
      let pts := points + st'.turn_points
      let pts := if sp.bonus ≠ 0 ∧ 0 < st'.fills then pts + sp.bonus else pts
      AiOut.banked st'.turn_points pts st' score
    else
      AiOut.cont st' points score

/-- Final observables of one AI turn, mirroring `TurnEnd`. -/
structure AiEnd where
  ret : Nat
  points : Nat
  fills : Nat
  bonus_added : Bool
  takenSum : Nat
  rng : RNG
deriving DecidableEq

/-- Fueled interpreter for the AI/non-interactive roll loop of
`Game.play_turn` (src/main.py lines 188-244).  `points` is the player's
cumulative score, updated exactly where the code updates
`player.points`. -/
def aiTurn (sp : Special) (threshold : Nat) (is_ai : Bool) :
    TurnSt → Nat → Nat → RNG → Nat → Option AiEnd
  | _, _, _, _, 0 => none
  | st, points, ts, rng, fuel + 1 =>
    let roll := (rollDice st.dice_left rng).1
    let rng' := (rollDice st.dice_left rng).2
    match aiProcessRoll sp threshold is_ai st points roll with
    | AiOut.busted pts =>
      some ⟨0, pts, st.fills, st.bonus_added, ts, rng'⟩
    | AiOut.banked ret pts st' taken =>
      some ⟨ret, pts, st'.fills, st'.bonus_added, ts + taken, rng'⟩
    | AiOut.cont st' pts taken =>
      aiTurn sp threshold is_ai st' pts (ts + taken) rng' fuel

/-! ## Card deck -/

/-- The fixed 20-card multiset of `CardDeckSpecial.__init__`
(src/main.py line 39). -/
def deckCards : List Card :=
  List.replicate 6 (Card.bonus 300) ++ List.replicate 4 (Card.bonus 400)
    ++ List.replicate 2 (Card.bonus 500) ++ List.replicate 3 Card.noDice
    ++ List.replicate 3 Card.mustBust ++ List.replicate 2 Card.doubleTrouble

/-- Swap two positions of a list (one step of a Fisher-Yates shuffle). -/
def listSwap (l : List Card) (i j : Nat) : List Card :=
  (l.set i (l.getD j Card.noDice)).set j (l.getD i Card.noDice)

/-- Fisher-Yates walk from position i+1 down to 1, consuming one random
value per step. -/
def shuffleAux : Nat → List Card → RNG → List Card × RNG
  | 0, l, r => (l, r)
  | i + 1, l, r =>
    let r' := rngNext r
    shuffleAux i (listSwap l (i + 1) (r'.state % (i + 2))) r'

/-- Model of `self.rng.shuffle(self.cards)` (src/main.py line 40).
Python's shuffle is external library code; the engine relies only on it
being a deterministic in-place permutation driven by the generator, so we
model it as a concrete deterministic Fisher-Yates over our generator. -/
def shuffle (l : List Card) (r : RNG) : List Card × RNG :=
  match l with
  | [] => ([], r)
  | _ => shuffleAux (l.length - 1) l r

/-- Embeds `CardDeckSpecial` (src/main.py lines 34-45): the stored seed,
the deck's own generator, and the shuffled card list. -/
structure CardDeckSpecial where
  seed : Nat
  rng : RNG
  cards : List Card
deriving DecidableEq

/-- Embeds `CardDeckSpecial.__init__(seed)` (src/main.py lines 35-40):
a fresh generator seeded with `seed` shuffles the fixed multiset. -/
def mkDeck (seed : Nat) : CardDeckSpecial :=
  ⟨seed, (shuffle deckCards (mkRNG seed)).2, (shuffle deckCards (mkRNG seed)).1⟩

/-- Embeds `CardDeckSpecial.draw` (src/main.py lines 42-45): if the card
list is empty, reinitialize from the stored seed, then pop the last card.
Popping an empty list would be the only failure, hence the `Option`. -/
def CardDeckSpecial.draw (d : CardDeckSpecial) : Option (Card × CardDeckSpecial) :=
  let d' := if d.cards.isEmpty then mkDeck d.seed else d
  d'.cards.getLast?.map (fun c => (c, ⟨d'.seed, d'.rng, d'.cards.dropLast⟩))

/-- State of the deck after k draws. -/
def deckAdvance (d : CardDeckSpecial) : Nat → Option CardDeckSpecial
  | 0 => some d
  | k + 1 => d.draw.bind (fun p => deckAdvance p.2 k)

/-- The card returned by the (k+1)-th call to draw (0-based k). -/
def nthDraw (d : CardDeckSpecial) (k : Nat) : Option Card :=
  (deckAdvance d k).bind (fun d2 => d2.draw.map Prod.fst)

/-! ## Match controller -/

/-- The per-match configuration of `Game.__init__` (src/main.py lines
103-106): `points_to_win` and `ai_threshold_points`. -/
structure MatchCfg where
  points_to_win : Nat
  ai_threshold_points : Nat
deriving DecidableEq

/-- Embeds the mutable match state of `Game` (src/main.py lines 102-110):
the players' cumulative points, the game's own dice generator
(`self.rng = random.Random(seed)`), and the card deck, which holds a
second, separately seeded generator (`CardDeckSpecial(seed=seed)`). -/
structure GameSt where
  points : List Nat
  rng : RNG
  card_deck : CardDeckSpecial
deriving DecidableEq

/-- Embeds `Game.__init__` for a fresh match of n players with the given
seed: both the dice generator and the deck's generator are seeded with
the same externally supplied seed, but they are two distinct generator
states. -/
def mkGame (numPlayers : Nat) (seed : Nat) : GameSt :=
  ⟨List.replicate numPlayers 0, mkRNG seed, mkDeck seed⟩

/-- Embeds `Game.play_turn` for an AI player (src/main.py lines 150-244):
draw a card, dispatch its effect, skip the turn on NO DICE, otherwise run
the AI roll loop starting from 6 dice and 0 points, then store the
player's updated cumulative score. -/
def playTurnAI (cfg : MatchCfg) (g : GameSt) (i : Nat) (fuel : Nat) : Option GameSt :=
  match g.card_deck.draw with
  | none => none
  | some (card, deck') =>
    let sp := specialOf card
    if sp.no_dice then some ⟨g.points, g.rng, deck'⟩
    else
      match aiTurn sp cfg.ai_threshold_points true ⟨6, 0, 0, false⟩
          (g.points.getD i 0) 0 g.rng fuel with
      | none => none
      | some e => some ⟨g.points.set i e.points, e.rng, deck'⟩

/-- Embeds the inner `for player in self.players` loop of `Game.run`
(src/main.py lines 348-354): play each remaining player's turn in order
and stop as soon as one reaches the win threshold. -/
def runFrom (cfg : MatchCfg) (turnFuel : Nat) :
    Nat → Nat → GameSt → Option (Option Nat × GameSt)
  | 0, _, g => some (none, g)
  | n + 1, i, g =>
    match playTurnAI cfg g i turnFuel with
    | none => none
    | some g' =>
      if cfg.points_to_win ≤ g'.points.getD i 0 then some (some i, g')
      else runFrom cfg turnFuel n (i + 1) g'

/-- Embeds the outer `while True` loop of `Game.run` (src/main.py lines
347-354) with round fuel: returns the index of the winning player and the
final match state. -/
def runMatch (cfg : MatchCfg) (turnFuel numPlayers : Nat) :
    Nat → GameSt → Option (Nat × GameSt)
  | 0, _ => none
  | r + 1, g =>
    match runFrom cfg turnFuel numPlayers 0 g with
    | none => none
    | some (some w, g') => some (w, g')
    | some (none, g') => runMatch cfg turnFuel numPlayers r g'

/-! ## Theorems -/

/-- The triple loop of `score_dice` accumulates one independent
contribution per face, so it equals a sum over the faces. -/
theorem tripleFold (dice : List Nat) :
    ∀ (l : List Nat) (s : Nat),
      l.foldl (fun s f => if 3 ≤ cntFace dice f then s + tripleBase f else s) s
        = s + (l.map (fun f => if 3 ≤ cntFace dice f then tripleBase f else 0)).sum := by
  intro l
  induction l with
  | nil => intro s; simp
  | cons x xs ih =>
    intro s
    simp only [List.foldl_cons, List.map_cons, List.sum_cons, ih]
    split_ifs <;> omega

/-- C1: for every roll of die values in 1..6, `score_dice` computes the sum
over faces of the claim's formula (triples consume exactly three dice and
score 1000 for 1s, face*100 otherwise; remaining 1s score 100 each and
remaining 5s score 50 each; other faces beyond a triple never score), and
in particular score([1,1,1,1]) = 1100, score([6,6,6,6]) = 600,
score([2,3,4,6]) = 0, and score([1,5]) = 150 with consumed counts
1 maps-to 1 and 5 maps-to 1. -/
theorem c1_score_dice_spec (dice : List Nat)
    (hval : ∀ v ∈ dice, 1 ≤ v ∧ v ≤ 6) :
    (score_dice dice).1 = scoreSpec dice
    ∧ (score_dice [1, 1, 1, 1]).1 = 1100
    ∧ (score_dice [6, 6, 6, 6]).1 = 600
    ∧ (score_dice [2, 3, 4, 6]).1 = 0
    ∧ (score_dice [1, 5]).1 = 150
    ∧ (score_dice [1, 5]).2 1 = 1 ∧ (score_dice [1, 5]).2 5 = 1 := by
  refine ⟨?_, by decide, by decide, by decide, by decide, by decide, by decide⟩
  show score_dice_points dice = scoreSpec dice
  unfold score_dice_points scoreSpec
  rw [tripleFold]
  simp only [cntFace, remFace, tripleBase, List.map_cons, List.map_nil,
    List.sum_cons, List.sum_nil]
  norm_num
  generalize List.count 1 dice = a
  generalize List.count 5 dice = e
  split_ifs <;> omega

/-- Witness for C1 at the concrete roll [1,5]. -/
theorem c1_score_dice_spec_witness :
    (score_dice [1, 5]).1 = scoreSpec [1, 5]
    ∧ (score_dice [1, 5]).1 = 150 := by
  have h := c1_score_dice_spec [1, 5] (by decide)
  exact ⟨h.1, h.2.2.2.2.1⟩

theorem listSwap_length (l : List Card) (i j : Nat) :
    (listSwap l i j).length = l.length := by
  simp [listSwap]

theorem shuffleAux_length :
    ∀ (i : Nat) (l : List Card) (r : RNG), ((shuffleAux i l r).1).length = l.length := by
  intro i
  induction i with
  | zero => intro l r; rfl
  | succ n ih =>
    intro l r
    simp only [shuffleAux, ih, listSwap_length]

theorem shuffle_length (l : List Card) (r : RNG) :
    ((shuffle l r).1).length = l.length := by
  cases l with
  | nil => rfl
  | cons x xs => exact shuffleAux_length _ _ _

theorem deckCards_length : deckCards.length = 20 := by
  simp [deckCards]

theorem mkDeck_cards_length (s : Nat) : (mkDeck s).cards.length = 20 := by
  simp only [mkDeck]
  rw [shuffle_length, deckCards_length]

theorem mkDeck_cards_ne_nil (s : Nat) : (mkDeck s).cards ≠ [] := by
  intro h
  have := mkDeck_cards_length s
  rw [h] at this
  simp at this

/-- Drawing never fails: an empty deck refills itself with the 20-card
multiset before popping. -/
theorem draw_isSome (d : CardDeckSpecial) : d.draw.isSome = true := by
  by_cases hie : d.cards.isEmpty = true
  · obtain ⟨c, hc⟩ := Option.isSome_iff_exists.mp
      (List.getLast?_isSome.mpr (mkDeck_cards_ne_nil d.seed))
    simp [CardDeckSpecial.draw, hie, hc]
  · have hne : d.cards ≠ [] := fun h2 => hie (by simp [h2])
    obtain ⟨c, hc⟩ := Option.isSome_iff_exists.mp (List.getLast?_isSome.mpr hne)
    simp [CardDeckSpecial.draw, hie, hc]

theorem deckAdvance_isSome : ∀ (k : Nat) (d : CardDeckSpecial),
    (deckAdvance d k).isSome = true := by
  intro k
  induction k with
  | zero => intro d; rfl
  | succ n ih =>
    intro d
    obtain ⟨p, hp⟩ := Option.isSome_iff_exists.mp (draw_isSome d)
    simp only [deckAdvance, hp, Option.some_bind]
    exact ih p.2

/-- Unfolding a draw on a deck with a nonempty card list: the last card
is popped and the seed and generator are untouched. -/
theorem draw_nonempty (d : CardDeckSpecial) (hne : d.cards ≠ []) :
    d.draw = (d.cards.getLast?.map (fun c => (c, ⟨d.seed, d.rng, d.cards.dropLast⟩))) := by
  have hie : ¬ (d.cards.isEmpty = true) := fun h => hne (List.isEmpty_iff.mp h)
  simp [CardDeckSpecial.draw, hie]

/-- After k ≤ 20 draws from a deck holding its cards, the remaining cards
are the untaken prefix; seed and generator are untouched. -/
theorem deckAdvance_take :
    ∀ (k : Nat) (d : CardDeckSpecial), k ≤ d.cards.length →
      deckAdvance d k = some ⟨d.seed, d.rng, d.cards.take (d.cards.length - k)⟩ := by
  intro k
  induction k with
  | zero =>
    intro d _
    simp [deckAdvance, List.take_length]
  | succ n ih =>
    intro d hk
    have hne : d.cards ≠ [] := by
      intro hc
      rw [hc] at hk
      simp at hk
    have hlast := Option.isSome_iff_exists.mp (List.getLast?_isSome.mpr hne)
    obtain ⟨c, hc⟩ := hlast
    have hdraw : d.draw = some (c, ⟨d.seed, d.rng, d.cards.dropLast⟩) := by
      rw [draw_nonempty d hne, hc]
      rfl
    have hlen : d.cards.dropLast.length = d.cards.length - 1 := List.length_dropLast _
    have hn : n ≤ d.cards.dropLast.length := by omega
    simp only [deckAdvance, hdraw, Option.some_bind]
    rw [ih ⟨d.seed, d.rng, d.cards.dropLast⟩ hn]
    have h1 : List.take (d.cards.dropLast.length - n) d.cards.dropLast
        = List.take (d.cards.length - (n + 1)) d.cards := by
      rw [hlen, List.dropLast_eq_take, List.take_take]
      congr 1
      omega
    simp only [h1]

theorem deckAdvance_add (a b : Nat) :
    ∀ (d : CardDeckSpecial),
      deckAdvance d (a + b) = (deckAdvance d a).bind (fun d2 => deckAdvance d2 b) := by
  induction a with
  | zero =>
    intro d
    simp [deckAdvance, Nat.zero_add]
  | succ n ih =>
    intro d
    rw [Nat.succ_add]
    simp only [deckAdvance, Option.bind_assoc]
    cases hd : d.draw with
    | none => simp
    | some p => simp [ih]

theorem deckAdvance_twenty (s : Nat) :
    deckAdvance (mkDeck s) 20 = some ⟨s, (mkDeck s).rng, []⟩ := by
  have h := deckAdvance_take 20 (mkDeck s) (by rw [mkDeck_cards_length])
  rw [h, mkDeck_cards_length]
  rfl

/-- Drawing from the exhausted deck refills from the stored seed, so it
behaves exactly like drawing from a freshly constructed deck. -/
theorem draw_exhausted (s : Nat) (r : RNG) :
    (CardDeckSpecial.mk s r []).draw = (mkDeck s).draw := by
  have hie : ¬ ((mkDeck s).cards.isEmpty = true) :=
    fun h => mkDeck_cards_ne_nil s (List.isEmpty_iff.mp h)
  simp [CardDeckSpecial.draw, hie]

theorem nthDraw_isSome (d : CardDeckSpecial) (k : Nat) :
    (nthDraw d k).isSome = true := by
  unfold nthDraw
  obtain ⟨d2, hd2⟩ := Option.isSome_iff_exists.mp (deckAdvance_isSome k d)
  obtain ⟨p, hp⟩ := Option.isSome_iff_exists.mp (draw_isSome d2)
  rw [hd2, Option.some_bind, hp]
  rfl

/-- The deck's draw sequence is periodic with period 20: after the 20
cards are exhausted the deck reinitializes from its stored seed and the
identical shuffled order repeats. -/
theorem nthDraw_period (s : Nat) (k : Nat) :
    nthDraw (mkDeck s) (k + 20) = nthDraw (mkDeck s) k := by
  unfold nthDraw
  have hcomm : k + 20 = 20 + k := by omega
  rw [hcomm, deckAdvance_add 20 k, deckAdvance_twenty s, Option.some_bind]
  cases k with
  | zero =>
    simp only [deckAdvance, Option.some_bind]
    rw [draw_exhausted]
  | succ n =>
    simp only [deckAdvance]
    rw [draw_exhausted]

/-- C8: every draw on a seeded deck succeeds (an empty deck refills the
fixed 20-card multiset and reshuffles from the stored seed, never
erroring), the draw sequence repeats with period 20 across the reshuffle
boundary, and two decks constructed with equal seeds yield identical draw
sequences. -/
theorem c8_deck_draws (seed k : Nat) :
    (nthDraw (mkDeck seed) k).isSome = true
    ∧ nthDraw (mkDeck seed) (k + 20) = nthDraw (mkDeck seed) k
    ∧ (∀ seed2, seed = seed2 → nthDraw (mkDeck seed) k = nthDraw (mkDeck seed2) k) := by
  refine ⟨nthDraw_isSome _ _, nthDraw_period seed k, ?_⟩
  intro s2 h
  rw [h]

/-- Witness for C8 at seed 7 and draw index 3. -/
theorem c8_deck_draws_witness :
    (nthDraw (mkDeck 7) 3).isSome = true
    ∧ nthDraw (mkDeck 7) 23 = nthDraw (mkDeck 7) 3
    ∧ nthDraw (mkDeck 7) 3 = nthDraw (mkDeck 7) 3 :=
  ⟨(c8_deck_draws 7 3).1, (c8_deck_draws 7 3).2.1, (c8_deck_draws 7 3).2.2 7 rfl⟩

/-! ## Claim theorems: concrete behaviors -/

/-- C2 (code bug): banking is not blocked while MUST BUST is active.  At
the keep-or-bank prompt only DOUBLE TROUBLE is gated, so with MustBust
drawn, 50 turn points pending and a scoring roll ([1,4,5,2] from this
generator state), the answer b banks: the turn returns 50 and credits 50
to the cumulative score, although the code's own card text says the
player cannot bank. -/
theorem c2_mustbust_bank_allowed :
    (interactiveTurn (specialOf Card.mustBust) (fun _ => Decision.bank) (fun _ => false)
        ⟨4, 50, 0, false⟩ (mkRNG 1) 0 1).map (fun e => (e.ret, e.credit)) = some (50, 50)
    ∧ humanRound (specialOf Card.mustBust) ⟨4, 50, 0, false⟩ (rollDice 4 (mkRNG 1)).1
        Decision.bank false = RoundOut.bankedNow := by
  exact ⟨by decide, by decide⟩

/-- C4 (code bug): with DOUBLE TROUBLE active and no fill yet, banking is
rejected at the keep-or-bank prompt, but the roll-again-or-bank prompt
that follows a keep is not gated: keeping the scoring dice of the roll
([1,4,5,2,5,4], 200 points) and answering b banks 200 points with
fillsCompleted = 0, which is below the required 2 fills. -/
theorem c4_doubletrouble_bank_after_keep :
    (interactiveTurn (specialOf Card.doubleTrouble) (fun _ => Decision.keep) (fun _ => true)
        ⟨6, 0, 0, false⟩ (mkRNG 1) 0 1).map (fun e => (e.credit, e.fills)) = some (200, 0)
    ∧ humanRound (specialOf Card.doubleTrouble) ⟨6, 0, 0, false⟩
        (rollDice 6 (mkRNG 1)).1 Decision.bank false = RoundOut.rejected := by
  exact ⟨by decide, by decide⟩

/-- C10 (code bug): a selection with repeated indices passes every check
(the bounds test is per element and the eligibility test collapses
duplicates through set semantics), so on the roll [1,5] with 2 dice left
the entry 1 1 1 is accepted, consumes taken_count = 3 and drives
dice_left to -1; the next roll of -1 dice is then empty and scores 0, a
spurious bust. -/
theorem c10_duplicate_indices_negative :
    humanRound (specialOf (Card.bonus 300)) ⟨2, 0, 0, false⟩ [1, 5]
        (Decision.choose [1, 1, 1]) false
      = RoundOut.took ⟨-1, 1000, 0, false⟩ 1000 false
    ∧ (rollDice (-1) (mkRNG 5)).1 = []
    ∧ (score_dice []).1 = 0 := by
  exact ⟨by decide, by decide, by decide⟩

/-- C5 counterexample: with MUST BUST active, 100 turn points pending and
one die left, this generator state rolls [4], a bust.  The 100 points are
credited to the cumulative score (0 becomes 100), but play_turn returns
0 — not turnPoints as the claim states. -/
theorem c5_counterexample :
    (aiTurn (specialOf Card.mustBust) 500 true ⟨1, 100, 0, false⟩ 0 0 (mkRNG 0) 1).map
        (fun e => (e.ret, e.points)) = some (0, 100)
    ∧ (0 : Nat) ≠ 100 := by
  exact ⟨by decide, by decide⟩

/-- C7 counterexample: with one die left this generator state rolls [1]
(a scoring roll); the selection of index 5 is out of bounds and is
rejected, but the engine does not re-prompt on that same roll: the next
iteration draws a fresh roll ([4], different from the pending [1]) and
the random source state has advanced. -/
theorem c7_counterexample :
    humanRound (specialOf Card.doubleTrouble) ⟨1, 0, 0, false⟩ (rollDice 1 (mkRNG 1)).1
        (Decision.choose [5]) false = RoundOut.rejected
    ∧ (rollDice 1 (rollDice 1 (mkRNG 1)).2).1 ≠ (rollDice 1 (mkRNG 1)).1
    ∧ (rollDice 1 (mkRNG 1)).2 ≠ mkRNG 1 := by
  exact ⟨by decide, by decide, by decide⟩

/-- C9 counterexample: the match does not use a single shared
pseudo-random source.  Right after construction with seed 0, the dice
generator is still at the raw seed state while the deck's generator has
already consumed the shuffle's random values: they are two distinct,
independently seeded generator states. -/
theorem c9_counterexample :
    (mkGame 2 0).card_deck.rng ≠ (mkGame 2 0).rng
    ∧ (mkGame 2 0).rng = mkRNG 0 := by
  exact ⟨by decide, by decide⟩

/-- C9 (amended): with a fixed seed, an all-AI match is a pure function
of the seed, so two runs with equal seeds produce identical results —
the same winner index and the same final match state (scores, generator
state, deck).  Dice rolls and deck shuffling come from two separate
generator states, each seeded with the match seed (see the
counterexample), not from one shared source. -/
theorem c9_same_seed_reproducible (cfg : MatchCfg) (tf np rf s1 s2 : Nat)
    (h : s1 = s2) :
    runMatch cfg tf np rf (mkGame np s1) = runMatch cfg tf np rf (mkGame np s2) := by
  rw [h]

/-- Witness for C9 at seed 0 with two players. -/
theorem c9_same_seed_reproducible_witness :
    runMatch ⟨2000, 500⟩ 50 2 10 (mkGame 2 0) = runMatch ⟨2000, 500⟩ 50 2 10 (mkGame 2 0) :=
  c9_same_seed_reproducible ⟨2000, 500⟩ 50 2 10 0 0 rfl

/-! ## Characterizations of one roll-loop iteration -/

theorem afterTake_turn_points_le (sp : Special) (st : TurnSt) (s c : Nat) :
    st.turn_points + s ≤ (afterTake sp st s c).turn_points := by
  simp only [afterTake]
  split_ifs with h1 h2 <;> dsimp only <;> omega

theorem humanRound_eq_bust (sp : Special) (st : TurnSt) (roll : List Nat)
    (dec : Decision) (cb : Bool) (h : (score_dice roll).1 = 0) :
    humanRound sp st roll dec cb
      = RoundOut.busted (if sp.must_bust then st.turn_points else 0) := by
  simp [humanRound, h]

theorem humanRound_keep_eq (sp : Special) (st : TurnSt) (roll : List Nat)
    (cb : Bool) (h : (score_dice roll).1 ≠ 0) :
    humanRound sp st roll Decision.keep cb
      = RoundOut.took (afterTake sp st (score_dice roll).1 (usedTotal (score_dice roll).2))
          (score_dice roll).1 cb := by
  simp [humanRound, h]

theorem humanRound_bank_eq (sp : Special) (st : TurnSt) (roll : List Nat)
    (cb : Bool) (h : (score_dice roll).1 ≠ 0) :
    humanRound sp st roll Decision.bank cb
      = (if sp.double_trouble ∧ st.fills < 2 then RoundOut.rejected
          else RoundOut.bankedNow) := by
  simp [humanRound, h]

theorem humanRound_choose_eq (sp : Special) (st : TurnSt) (roll : List Nat)
    (parts : List Int) (cb : Bool) (h : (score_dice roll).1 ≠ 0) :
    humanRound sp st roll (Decision.choose parts) cb
      = (if (parts.map (fun p => p - 1)).any
              (fun i => decide (i < 0) || decide ((roll.length : Int) ≤ i)) then
          RoundOut.rejected
        else if ¬ (∀ i ∈ parts.map (fun p => p - 1), i.toNat ∈ scoring_indices roll) then
          RoundOut.rejected
        else if (score_dice ((parts.map (fun p => p - 1)).map
            (fun i => roll.getD i.toNat 0))).1 = 0 then
          RoundOut.rejected
        else
          RoundOut.took
            (afterTake sp st
              (score_dice ((parts.map (fun p => p - 1)).map (fun i => roll.getD i.toNat 0))).1
              ((parts.map (fun p => p - 1)).map (fun i => roll.getD i.toNat 0)).length)
            (score_dice ((parts.map (fun p => p - 1)).map (fun i => roll.getD i.toNat 0))).1
            cb) := by
  simp [humanRound, h]

/-- Inversion: a busted interactive round means the roll scored zero, and
the credit is the turn total only under MUST BUST. -/
theorem humanRound_busted_inv (sp : Special) (st : TurnSt) (roll : List Nat)
    (dec : Decision) (cb : Bool) (c : Nat)
    (h : humanRound sp st roll dec cb = RoundOut.busted c) :
    c = (if sp.must_bust then st.turn_points else 0)
    ∧ (score_dice roll).1 = 0 := by
  by_cases hs : (score_dice roll).1 = 0
  · rw [humanRound_eq_bust sp st roll dec cb hs] at h
    cases h
    exact ⟨rfl, hs⟩
  · exfalso
    cases dec with
    | keep =>
      rw [humanRound_keep_eq sp st roll cb hs] at h
      exact RoundOut.noConfusion h
    | bank =>
      rw [humanRound_bank_eq sp st roll cb hs] at h
      split_ifs at h
      all_goals exact RoundOut.noConfusion h
    | choose parts =>
      rw [humanRound_choose_eq sp st roll parts cb hs] at h
      split_ifs at h
      all_goals exact RoundOut.noConfusion h

/-- Inversion: a successful keep goes through `afterTake` with a positive
taken score, and the bank flag is the roll-again-or-bank answer. -/
theorem humanRound_took_inv (sp : Special) (st : TurnSt) (roll : List Nat)
    (dec : Decision) (cb : Bool) (st' : TurnSt) (taken : Nat) (bank : Bool)
    (h : humanRound sp st roll dec cb = RoundOut.took st' taken bank) :
    (∃ c, st' = afterTake sp st taken c) ∧ bank = cb ∧ 0 < taken := by
  by_cases hs : (score_dice roll).1 = 0
  · rw [humanRound_eq_bust sp st roll dec cb hs] at h
    exact RoundOut.noConfusion h
  · cases dec with
    | keep =>
      rw [humanRound_keep_eq sp st roll cb hs] at h
      cases h
      exact ⟨⟨usedTotal (score_dice roll).2, rfl⟩, rfl, by omega⟩
    | bank =>
      rw [humanRound_bank_eq sp st roll cb hs] at h
      split_ifs at h
      all_goals exact RoundOut.noConfusion h
    | choose parts =>
      rw [humanRound_choose_eq sp st roll parts cb hs] at h
      split_ifs at h with h1 h2 h3
      all_goals first
      | (cases h
         exact ⟨⟨_, rfl⟩, rfl, by omega⟩)
      | exact RoundOut.noConfusion h

/-- Computation: the AI loop body on a zero-scoring roll. -/
theorem aiProcessRoll_eq_bust (sp : Special) (th : Nat) (ai : Bool)
    (st : TurnSt) (points : Nat) (roll : List Nat)
    (h : (score_dice roll).1 = 0) :
    aiProcessRoll sp th ai st points roll
      = AiOut.busted (if sp.must_bust then points + st.turn_points else points) := by
  simp [aiProcessRoll, h]

/-- Computation: the AI loop body on a scoring roll takes the whole roll
score and banks exactly when the player is an AI at or above the
threshold. -/
theorem aiProcessRoll_eq_score (sp : Special) (th : Nat) (ai : Bool)
    (st : TurnSt) (points : Nat) (roll : List Nat)
    (h : (score_dice roll).1 ≠ 0) :
    aiProcessRoll sp th ai st points roll
      = (if ai ∧ th ≤ (afterTake sp st (score_dice roll).1
            (usedTotal (score_dice roll).2)).turn_points then
          AiOut.banked
            (afterTake sp st (score_dice roll).1 (usedTotal (score_dice roll).2)).turn_points
            (if sp.bonus ≠ 0 ∧ 0 < (afterTake sp st (score_dice roll).1
                (usedTotal (score_dice roll).2)).fills then
              points + (afterTake sp st (score_dice roll).1
                (usedTotal (score_dice roll).2)).turn_points + sp.bonus
            else
              points + (afterTake sp st (score_dice roll).1
                (usedTotal (score_dice roll).2)).turn_points)
            (afterTake sp st (score_dice roll).1 (usedTotal (score_dice roll).2))
            (score_dice roll).1
        else
          AiOut.cont (afterTake sp st (score_dice roll).1 (usedTotal (score_dice roll).2))
            points (score_dice roll).1) := by
  simp [aiProcessRoll, h]

/-- One-step unfolding of the interactive turn interpreter. -/
theorem interactiveTurn_succ (sp : Special) (decs : Nat → Decision) (conts : Nat → Bool)
    (st : TurnSt) (rng : RNG) (ts fuel : Nat) :
    interactiveTurn sp decs conts st rng ts (fuel + 1)
      = (match humanRound sp st (rollDice st.dice_left rng).1 (decs fuel) (conts fuel) with
        | RoundOut.busted credit =>
          some ⟨0, credit, st.fills, st.bonus_added, ts, (rollDice st.dice_left rng).2⟩
        | RoundOut.rejected =>
          interactiveTurn sp decs conts st (rollDice st.dice_left rng).2 ts fuel
        | RoundOut.bankedNow =>
          some ⟨st.turn_points, st.turn_points, st.fills, st.bonus_added, ts,
            (rollDice st.dice_left rng).2⟩
        | RoundOut.took st' taken bank =>
          if bank then
            some ⟨st'.turn_points, st'.turn_points, st'.fills, st'.bonus_added,
              ts + taken, (rollDice st.dice_left rng).2⟩
          else interactiveTurn sp decs conts st' (rollDice st.dice_left rng).2
            (ts + taken) fuel) := rfl

/-- One-step unfolding of the AI turn interpreter. -/
theorem aiTurn_succ (sp : Special) (th : Nat) (ai : Bool)
    (st : TurnSt) (points ts : Nat) (rng : RNG) (fuel : Nat) :
    aiTurn sp th ai st points ts rng (fuel + 1)
      = (match aiProcessRoll sp th ai st points
            (rollDice st.dice_left rng).1 with
        | AiOut.busted pts =>
          some ⟨0, pts, st.fills, st.bonus_added, ts, (rollDice st.dice_left rng).2⟩
        | AiOut.banked ret pts st' taken =>
          some ⟨ret, pts, st'.fills, st'.bonus_added, ts + taken,
            (rollDice st.dice_left rng).2⟩
        | AiOut.cont st' pts taken =>
          aiTurn sp th ai st' pts (ts + taken) (rollDice st.dice_left rng).2 fuel) := rfl

/-- C5 (amended): whenever MUST BUST is active and the roll busts, the
turn points accumulated so far are credited to the player's cumulative
score — but play_turn returns 0, the normal bust return value, not
turnPoints.  This holds in the AI loop (where the cumulative score is
threaded) and in the interactive loop's bust outcome alike. -/
theorem c5_mustbust_bust_credit (sp : Special) (th : Nat) (ai : Bool)
    (st : TurnSt) (points ts fuel : Nat) (rng : RNG) (dec : Decision) (cb : Bool)
    (hmb : sp.must_bust = true)
    (hbust : (score_dice (rollDice st.dice_left rng).1).1 = 0) :
    (aiTurn sp th ai st points ts rng (fuel + 1)).map (fun e => (e.ret, e.points))
      = some (0, points + st.turn_points)
    ∧ humanRound sp st (rollDice st.dice_left rng).1 dec cb
      = RoundOut.busted st.turn_points := by
  constructor
  · rw [aiTurn_succ, aiProcessRoll_eq_bust sp th ai st points _ hbust, hmb]
    simp
  · rw [humanRound_eq_bust sp st _ dec cb hbust, hmb]
    simp

/-- Witness for the amended C5 at a concrete busting state: one die left,
MUST BUST active, 100 pending turn points; the roll is [4]. -/
theorem c5_mustbust_bust_credit_witness :
    (aiTurn (specialOf Card.mustBust) 500 true ⟨1, 100, 0, false⟩ 0 0 (mkRNG 0) 1).map
        (fun e => (e.ret, e.points)) = some (0, 100)
    ∧ humanRound (specialOf Card.mustBust) ⟨1, 100, 0, false⟩
        (rollDice 1 (mkRNG 0)).1 Decision.bank false = RoundOut.busted 100 :=
  c5_mustbust_bust_credit (specialOf Card.mustBust) 500 true ⟨1, 100, 0, false⟩ 0 0 0
    (mkRNG 0) Decision.bank false rfl (by decide)

/-- C6: on every scoring roll the AI policy takes all scoring dice (the
whole roll score is added to the turn total); it banks exactly when the
turn total has reached the configured threshold, crediting the cumulative
score with the turn total plus — when a Bonus card is active and at least
one fill occurred — the bonus amount a second time (it was already folded
into the turn total at fill time); and a scoring roll never busts. -/
theorem c6_ai_policy (sp : Special) (th : Nat) (st : TurnSt) (points : Nat)
    (roll : List Nat) (hs : 0 < (score_dice roll).1) :
    (∀ st2 pts taken,
      aiProcessRoll sp th true st points roll = AiOut.cont st2 pts taken →
      pts = points ∧ st2.turn_points < th
        ∧ st.turn_points + (score_dice roll).1 ≤ st2.turn_points)
    ∧ (∀ ret pts st2 taken,
        aiProcessRoll sp th true st points roll = AiOut.banked ret pts st2 taken →
        ret = st2.turn_points ∧ th ≤ st2.turn_points
          ∧ st.turn_points + (score_dice roll).1 ≤ st2.turn_points
          ∧ pts = points + st2.turn_points
              + (if sp.bonus ≠ 0 ∧ 0 < st2.fills then sp.bonus else 0))
    ∧ (∀ pts, aiProcessRoll sp th true st points roll ≠ AiOut.busted pts) := by
  have hs0 : (score_dice roll).1 ≠ 0 := by omega
  have hle := afterTake_turn_points_le sp st (score_dice roll).1
    (usedTotal (score_dice roll).2)
  rw [aiProcessRoll_eq_score sp th true st points roll hs0]
  by_cases hth : th ≤ (afterTake sp st (score_dice roll).1
      (usedTotal (score_dice roll).2)).turn_points
  · rw [if_pos ⟨rfl, hth⟩]
    refine ⟨?_, ?_, ?_⟩
    · intro st2 pts taken h
      exact AiOut.noConfusion h
    · intro ret pts st2 taken h
      cases h
      refine ⟨rfl, hth, hle, ?_⟩
      split_ifs <;> omega
    · intro pts h
      exact AiOut.noConfusion h
  · rw [if_neg (fun hc => hth hc.2)]
    refine ⟨?_, ?_, ?_⟩
    · intro st2 pts taken h
      cases h
      exact ⟨rfl, by omega, hle⟩
    · intro ret pts st2 taken h
      exact AiOut.noConfusion h
    · intro pts h
      exact AiOut.noConfusion h

/-- Witness for C6 at the roll [1,1,1,5,2,2] (score 1050, four dice
consumed) from a fresh turn with threshold 500: the AI banks 1050 and the
cumulative score rises by exactly 1050 (no fill, so no extra bonus). -/
theorem c6_ai_policy_witness :
    (1050 : Nat) = 1050 ∧ (500 : Nat) ≤ 1050 ∧ (0 : Nat) + 1050 ≤ 1050
    ∧ (1050 : Nat) = 0 + 1050 + 0 :=
  (c6_ai_policy (specialOf (Card.bonus 300)) 500 ⟨6, 0, 0, false⟩ 0
    [1, 1, 1, 5, 2, 2] (by decide)).2.1 1050 1050 ⟨2, 1050, 0, false⟩ 1050 (by decide)

/-- C7 (amended): a rejected action leaves the turn variables
(turnPoints, diceRemaining, fillsCompleted) unchanged — but the engine
does not re-prompt on the same roll: the rejection continues the outer
roll loop, which discards the pending roll and draws a fresh one from the
advanced random source.  Out-of-bounds index selections are rejected, and
a bank attempt under DOUBLE TROUBLE with fewer than 2 fills is rejected;
a MUST BUST bank attempt is not rejected at all (see C2). -/
theorem c7_rejection_keeps_state (sp : Special) (st : TurnSt) (rng : RNG)
    (ts fuel : Nat) (decs : Nat → Decision) (conts : Nat → Bool) :
    (humanRound sp st (rollDice st.dice_left rng).1 (decs fuel) (conts fuel)
        = RoundOut.rejected →
      interactiveTurn sp decs conts st rng ts (fuel + 1)
        = interactiveTurn sp decs conts st (rollDice st.dice_left rng).2 ts fuel)
    ∧ (∀ (roll : List Nat) (parts : List Int) (cb : Bool),
        (score_dice roll).1 ≠ 0 →
        (∃ p ∈ parts, p - 1 < 0 ∨ (roll.length : Int) ≤ p - 1) →
        humanRound sp st roll (Decision.choose parts) cb = RoundOut.rejected)
    ∧ (∀ (roll : List Nat) (cb : Bool),
        (score_dice roll).1 ≠ 0 → sp.double_trouble = true → st.fills < 2 →
        humanRound sp st roll Decision.bank cb = RoundOut.rejected) := by
  refine ⟨?_, ?_, ?_⟩
  · intro h
    rw [interactiveTurn_succ, h]
  · intro roll parts cb hs hex
    rw [humanRound_choose_eq sp st roll parts cb hs]
    have hany : ((parts.map (fun p => p - 1)).any
        (fun i => decide (i < 0) || decide ((roll.length : Int) ≤ i))) = true := by
      rcases hex with ⟨p, hp, hor⟩
      refine List.any_eq_true.mpr ⟨p - 1, List.mem_map_of_mem _ hp, ?_⟩
      rcases hor with h1 | h2
      · simp [h1]
      · simp [h2]
    rw [if_pos hany]
  · intro roll cb hs hdt hf
    rw [humanRound_bank_eq sp st roll cb hs]
    rw [if_pos ⟨hdt, hf⟩]

/-- Witness for the amended C7: one die left and the generator rolls a
scoring [1]; the selection of index 5 is out of bounds, so the turn
continues with the same turn variables and a freshly drawn roll. -/
theorem c7_rejection_keeps_state_witness :
    interactiveTurn (specialOf Card.doubleTrouble)
        (fun _ => Decision.choose [5]) (fun _ => false) ⟨1, 0, 0, false⟩ (mkRNG 1) 0 2
      = interactiveTurn (specialOf Card.doubleTrouble)
        (fun _ => Decision.choose [5]) (fun _ => false) ⟨1, 0, 0, false⟩
        (rollDice 1 (mkRNG 1)).2 0 1 :=
  (c7_rejection_keeps_state (specialOf Card.doubleTrouble) ⟨1, 0, 0, false⟩ (mkRNG 1) 0 1
    (fun _ => Decision.choose [5]) (fun _ => false)).1 (by decide)

/-- The one-shot flag and the fill count decide the same bonus summand. -/
theorem ite_bonus_align (b : Nat) (added : Bool) (fills : Nat)
    (h : added = true ↔ 1 ≤ fills) :
    (if added then b else 0) = (if 1 ≤ fills then b else 0) := by
  cases added with
  | true => simp [h.mp rfl]
  | false =>
    have hnf : ¬ (1 ≤ fills) := fun hf => Bool.noConfusion (h.mpr hf)
    simp [hnf]

/-- The bonus-accounting invariant is preserved by a take: the turn total
is the sum of taken scores plus the bonus exactly when the one-shot flag
is set, and the flag is set exactly when at least one fill happened. -/
theorem afterTake_bonus_inv (b : Nat) (hb : 0 < b) (st : TurnSt) (ts s c : Nat)
    (h1 : st.turn_points = ts + (if st.bonus_added then b else 0))
    (h2 : st.bonus_added = true ↔ 1 ≤ st.fills) :
    (afterTake (specialOf (Card.bonus b)) st s c).turn_points
      = (ts + s) + (if (afterTake (specialOf (Card.bonus b)) st s c).bonus_added
          then b else 0)
    ∧ ((afterTake (specialOf (Card.bonus b)) st s c).bonus_added = true
        ↔ 1 ≤ (afterTake (specialOf (Card.bonus b)) st s c).fills) := by
  have hb' : b ≠ 0 := by omega
  simp only [afterTake, specialOf]
  cases hbool : st.bonus_added with
  | false =>
    rw [hbool] at h1 h2
    have h1' : st.turn_points = ts := by simpa using h1
    rw [if_pos (⟨hb', rfl⟩ : b ≠ 0 ∧ false = false)]
    by_cases hdl : st.dice_left - (c : Int) = 0
    · rw [if_pos hdl]
      dsimp only
      constructor
      · simp [h1']
      · simp
    · rw [if_neg hdl]
      dsimp only
      constructor
      · simp [h1']
      · exact h2
  | true =>
    rw [hbool] at h1 h2
    have h1' : st.turn_points = ts + b := by simpa using h1
    rw [if_neg (fun hx => Bool.noConfusion hx.2 : ¬ (b ≠ 0 ∧ true = false))]
    by_cases hdl : st.dice_left - (c : Int) = 0
    · rw [if_pos hdl]
      dsimp only
      constructor
      · simp [h1']
        omega
      · simp
    · rw [if_neg hdl]
      dsimp only
      constructor
      · simp [h1']
        omega
      · simpa using h2

/-- Inversion: an AI-loop bust means the roll scored zero; the credit is
the turn total only under MUST BUST. -/
theorem aiProcessRoll_busted_inv (sp : Special) (th : Nat) (ai : Bool)
    (st : TurnSt) (points : Nat) (roll : List Nat) (p : Nat)
    (h : aiProcessRoll sp th ai st points roll = AiOut.busted p) :
    p = (if sp.must_bust then points + st.turn_points else points)
    ∧ (score_dice roll).1 = 0 := by
  by_cases hs : (score_dice roll).1 = 0
  · rw [aiProcessRoll_eq_bust sp th ai st points roll hs] at h
    cases h
    exact ⟨rfl, hs⟩
  · rw [aiProcessRoll_eq_score sp th ai st points roll hs] at h
    split_ifs at h
    all_goals exact AiOut.noConfusion h

/-- Inversion: an AI-loop bank takes the whole roll score through
`afterTake`, happens only at or above the threshold, and credits the
bonus a second time exactly when a fill already happened. -/
theorem aiProcessRoll_banked_inv (sp : Special) (th : Nat) (ai : Bool)
    (st : TurnSt) (points : Nat) (roll : List Nat)
    (ret pts : Nat) (st2 : TurnSt) (taken : Nat)
    (h : aiProcessRoll sp th ai st points roll = AiOut.banked ret pts st2 taken) :
    st2 = afterTake sp st (score_dice roll).1 (usedTotal (score_dice roll).2)
    ∧ taken = (score_dice roll).1
    ∧ ret = st2.turn_points
    ∧ pts = points + st2.turn_points
        + (if sp.bonus ≠ 0 ∧ 0 < st2.fills then sp.bonus else 0)
    ∧ ai = true ∧ th ≤ st2.turn_points
    ∧ (score_dice roll).1 ≠ 0 := by
  by_cases hs : (score_dice roll).1 = 0
  · rw [aiProcessRoll_eq_bust sp th ai st points roll hs] at h
    exact AiOut.noConfusion h
  · rw [aiProcessRoll_eq_score sp th ai st points roll hs] at h
    split_ifs at h with hcond hbon
    · cases h
      refine ⟨rfl, rfl, rfl, ?_, hcond.1, hcond.2, hs⟩
      rw [if_pos hbon]
    · cases h
      refine ⟨rfl, rfl, rfl, ?_, hcond.1, hcond.2, hs⟩
      rw [if_neg hbon, Nat.add_zero]

/-- Inversion: an AI-loop continue takes the whole roll score through
`afterTake`, leaves the cumulative score alone, and means the bank
condition failed. -/
theorem aiProcessRoll_cont_inv (sp : Special) (th : Nat) (ai : Bool)
    (st : TurnSt) (points : Nat) (roll : List Nat)
    (st2 : TurnSt) (pts taken : Nat)
    (h : aiProcessRoll sp th ai st points roll = AiOut.cont st2 pts taken) :
    st2 = afterTake sp st (score_dice roll).1 (usedTotal (score_dice roll).2)
    ∧ pts = points
    ∧ taken = (score_dice roll).1
    ∧ ¬(ai = true ∧ th ≤ st2.turn_points)
    ∧ (score_dice roll).1 ≠ 0 := by
  by_cases hs : (score_dice roll).1 = 0
  · rw [aiProcessRoll_eq_bust sp th ai st points roll hs] at h
    exact AiOut.noConfusion h
  · rw [aiProcessRoll_eq_score sp th ai st points roll hs] at h
    split_ifs at h with hcond
    cases h
    exact ⟨rfl, rfl, rfl, hcond, hs⟩

/-- Along any interactive turn with a Bonus card, the bonus is folded
into the turn total exactly once, at the first fill: at the end of the
turn the one-shot flag agrees with having filled, and the credited
points are the sum of taken scores plus the bonus exactly when a fill
happened (or 0 on a bust). -/
theorem interactiveTurn_bonus_inv (b : Nat) (hb : 0 < b)
    (decs : Nat → Decision) (conts : Nat → Bool) :
    ∀ (fuel : Nat) (st : TurnSt) (ts : Nat) (rng : RNG) (e : TurnEnd),
      st.turn_points = ts + (if st.bonus_added then b else 0) →
      (st.bonus_added = true ↔ 1 ≤ st.fills) →
      interactiveTurn (specialOf (Card.bonus b)) decs conts st rng ts fuel = some e →
      (e.bonus_added = true ↔ 1 ≤ e.fills)
      ∧ (e.credit = 0 ∨ e.credit = e.takenSum + (if 1 ≤ e.fills then b else 0)) := by
  intro fuel
  induction fuel with
  | zero =>
    intro st ts rng e h1 h2 h
    exact absurd h (by simp [interactiveTurn])
  | succ n ih =>
    intro st ts rng e h1 h2 h
    rw [interactiveTurn_succ] at h
    cases hr : humanRound (specialOf (Card.bonus b)) st (rollDice st.dice_left rng).1
        (decs n) (conts n) with
    | busted credit =>
      rw [hr] at h
      cases h
      obtain ⟨hc, _⟩ := humanRound_busted_inv _ _ _ _ _ _ hr
      have hc0 : credit = 0 := by simpa [specialOf] using hc
      exact ⟨h2, Or.inl hc0⟩
    | rejected =>
      rw [hr] at h
      exact ih st ts (rollDice st.dice_left rng).2 e h1 h2 h
    | bankedNow =>
      rw [hr] at h
      cases h
      refine ⟨h2, Or.inr ?_⟩
      rw [h1, ite_bonus_align b st.bonus_added st.fills h2]
    | took st' taken bank =>
      rw [hr] at h
      obtain ⟨⟨c, hst'⟩, hbank, hpos⟩ := humanRound_took_inv _ _ _ _ _ _ _ _ hr
      have hinv := afterTake_bonus_inv b hb st ts taken c h1 h2
      rw [← hst'] at hinv
      cases bank with
      | true =>
        dsimp only at h
        cases h
        refine ⟨hinv.2, Or.inr ?_⟩
        show st'.turn_points = (ts + taken) + (if 1 ≤ st'.fills then b else 0)
        rw [hinv.1, ite_bonus_align b st'.bonus_added st'.fills hinv.2]
      | false =>
        dsimp only at h
        exact ih st' (ts + taken) (rollDice st.dice_left rng).2 e hinv.1 hinv.2 h

/-- Along any AI turn with a Bonus card, the bonus is folded into the
turn total exactly once at the first fill, the returned turn total is the
sum of taken scores plus the bonus exactly when a fill happened, and a
turn without a fill credits the cumulative score with exactly the
returned turn total (no bonus). -/
theorem aiTurn_bonus_inv (b : Nat) (hb : 0 < b) (th : Nat) (ai : Bool) :
    ∀ (fuel : Nat) (st : TurnSt) (points ts : Nat) (rng : RNG) (e : AiEnd),
      st.turn_points = ts + (if st.bonus_added then b else 0) →
      (st.bonus_added = true ↔ 1 ≤ st.fills) →
      aiTurn (specialOf (Card.bonus b)) th ai st points ts rng fuel = some e →
      (e.bonus_added = true ↔ 1 ≤ e.fills)
      ∧ (e.ret = 0 ∨ e.ret = e.takenSum + (if 1 ≤ e.fills then b else 0))
      ∧ (e.fills = 0 → e.points = points + e.ret) := by
  intro fuel
  induction fuel with
  | zero =>
    intro st points ts rng e h1 h2 h
    exact absurd h (by simp [aiTurn])
  | succ n ih =>
    intro st points ts rng e h1 h2 h
    rw [aiTurn_succ] at h
    cases hr : aiProcessRoll (specialOf (Card.bonus b)) th ai st points
        (rollDice st.dice_left rng).1 with
    | busted pts =>
      rw [hr] at h
      cases h
      obtain ⟨hp, _⟩ := aiProcessRoll_busted_inv _ _ _ _ _ _ _ hr
      have hp0 : pts = points := by simpa [specialOf] using hp
      refine ⟨h2, Or.inl rfl, fun _ => ?_⟩
      simp [hp0]
    | banked ret pts st' taken =>
      rw [hr] at h
      cases h
      obtain ⟨hst', htaken, hret, hpts, _, _, _⟩ :=
        aiProcessRoll_banked_inv _ _ _ _ _ _ _ _ _ _ hr
      rw [← htaken] at hst'
      have hinv := afterTake_bonus_inv b hb st ts taken
        (usedTotal (score_dice (rollDice st.dice_left rng).1).2) h1 h2
      rw [← hst'] at hinv
      refine ⟨hinv.2, Or.inr ?_, fun hf0 => ?_⟩
      · show ret = (ts + taken) + (if 1 ≤ st'.fills then b else 0)
        rw [hret, hinv.1, ite_bonus_align b st'.bonus_added st'.fills hinv.2]
      · have hf0' : st'.fills = 0 := hf0
        have hnb : ¬ ((specialOf (Card.bonus b)).bonus ≠ 0 ∧ 0 < st'.fills) := by
          intro hx
          have := hx.2
          omega
        show pts = points + ret
        rw [hpts, hret, if_neg hnb, Nat.add_zero]
    | cont st' pts taken =>
      rw [hr] at h
      obtain ⟨hst', hpts, htaken, _, _⟩ :=
        aiProcessRoll_cont_inv _ _ _ _ _ _ _ _ _ hr
      rw [← htaken] at hst'
      have hinv := afterTake_bonus_inv b hb st ts taken
        (usedTotal (score_dice (rollDice st.dice_left rng).1).2) h1 h2
      rw [← hst'] at hinv
      have hrec := ih st' pts (ts + taken) (rollDice st.dice_left rng).2 e
        hinv.1 hinv.2 h
      rw [hpts] at hrec
      exact hrec

/-- C3: in a turn that starts fresh (6 dice, 0 points, no fills) with a
Bonus card of amount b active, the bonus enters the running turn total
exactly once, at the first fill — at turn end the one-shot flag holds
exactly when a fill happened, and the credited points equal the sum of
all taken scores plus b exactly when at least one fill occurred (a bust
credits 0) — in the interactive loop; and in the AI loop additionally a
turn with no fill credits the cumulative score with exactly the returned
turn total, never including the bonus. -/
theorem c3_bonus_applied_once (b : Nat) (hb : 0 < b) (decs : Nat → Decision)
    (conts : Nat → Bool) (rng : RNG) (fuel : Nat) :
    (∀ e, interactiveTurn (specialOf (Card.bonus b)) decs conts
        ⟨6, 0, 0, false⟩ rng 0 fuel = some e →
      (e.bonus_added = true ↔ 1 ≤ e.fills)
      ∧ (e.credit = 0 ∨ e.credit = e.takenSum + (if 1 ≤ e.fills then b else 0)))
    ∧ (∀ (th : Nat) (ai : Bool) (points : Nat) (e : AiEnd),
        aiTurn (specialOf (Card.bonus b)) th ai ⟨6, 0, 0, false⟩ points 0 rng fuel
          = some e →
        (e.bonus_added = true ↔ 1 ≤ e.fills)
        ∧ (e.ret = 0 ∨ e.ret = e.takenSum + (if 1 ≤ e.fills then b else 0))
        ∧ (e.fills = 0 → e.points = points + e.ret)) := by
  constructor
  · intro e h
    exact interactiveTurn_bonus_inv b hb decs conts fuel ⟨6, 0, 0, false⟩ 0 rng e
      (by simp) (by simp) h
  · intro th ai points e h
    exact aiTurn_bonus_inv b hb th ai fuel ⟨6, 0, 0, false⟩ points 0 rng e
      (by simp) (by simp) h

/-- Witness for C3: bonus 300, the player banks at the first prompt after
one scoring roll (no fill), and the credited points contain no bonus. -/
theorem c3_bonus_applied_once_witness :
    ((false = true) ↔ 1 ≤ (0 : Nat))
    ∧ ((0 : Nat) = 0 ∨ (0 : Nat) = 0 + (if 1 ≤ (0 : Nat) then 300 else 0)) :=
  (c3_bonus_applied_once 300 (by decide) (fun _ => Decision.bank) (fun _ => false)
      (mkRNG 1) 1).1
    ⟨0, 0, 0, false, 0, ⟨368800899⟩⟩ (by decide)
